import Mathlib

/-!
A verification development for the EviLinEd line editor (EVILINED.C).

The document store, the range resolver, the substitution engine, the file
round-trip and the visual-editor split/join primitives are embedded below as
executable Lean functions translated from the C source.  Lines are modelled
as `List Char` (byte buffers without their terminating NUL); the global
`lines[MAX_LINES]` pointer array together with `line_count` is modelled as a
`Doc`; the remaining globals (cursor position and the last-range memory) are
collected in `Ed`.  A NULL line pointer is `none`.  Allocation (`malloc`,
`xstrdup`) is modelled as always succeeding.
-/

namespace EviLinEd

/-- The MAX_LINES constant of EVILINED.C. -/
def MAX_LINES : Nat := 1200

/-- The LINE_LEN constant of EVILINED.C (buffer size; a stored line holds at
most LINE_LEN - 1 bytes plus the NUL). -/
def LINE_LEN : Nat := 256

/-- The document store: the global `lines` array plus `line_count`.  Slot `i`
holds `none` where the C array holds a NULL (or never-written) pointer. -/
structure Doc where
  lines : Nat → Option (List Char)
  line_count : Nat

/-- The full editor state: the document plus the cursor globals of the visual
editor and the last-range memory `last_a` / `last_b`. -/
structure Ed where
  doc : Doc
  cursor_row : Nat
  cursor_col : Nat
  last_a : Int
  last_b : Int

/-- Translation of `to_range_defaults`: clamp `a` up to 1, reset a `b` outside
`[1, line_count]` to `line_count`, then swap when `a > b` on a non-empty
document.  `lc` is the global `line_count`. -/
def to_range_defaults (lc a b : Int) : Int × Int :=
  let a1 := if a < 1 then 1 else a
  let b1 := if b < 1 ∨ lc < b then lc else b
  if b1 < a1 ∧ 0 < lc then (b1, a1) else (a1, b1)

/-- Translation of `chomp`: strip one trailing LF or CR, then one further
trailing CR (so a trailing CRLF is removed entirely). -/
def chomp (s : List Char) : List Char :=
  let s1 := if s.getLast? = some '\n' ∨ s.getLast? = some '\r' then s.dropLast else s
  if s1.getLast? = some '\r' then s1.dropLast else s1

/-- Model of a single `fgets(buf, n+1, f)` call on the remaining byte stream:
read at most `n` characters, stopping after a newline.  `load_file` calls it
with `n = LINE_LEN - 1 = 255`. -/
def fgetsChunk : Nat → List Char → List Char
  | 0, _ => []
  | _ + 1, [] => []
  | n + 1, c :: cs => if c = '\n' then [c] else c :: fgetsChunk n cs

/-- The `fgets` loop of `load_file`: split the stream into successive fgets
chunks.  The fuel argument only bounds the recursion; `splitFile` supplies
enough fuel for the whole stream (each chunk consumes at least one byte). -/
def splitFileAux : Nat → List Char → List (List Char)
  | 0, _ => []
  | fuel + 1, s =>
    if s.isEmpty then []
    else
      let chunk := fgetsChunk (LINE_LEN - 1) s
      chunk :: splitFileAux fuel (s.drop chunk.length)

/-- All fgets chunks of a byte stream. -/
def splitFile (f : List Char) : List Char → List (List Char) :=
  fun s => splitFileAux f.length s

/-- Translation of `load_file`, acting on the file's byte stream: each fgets
chunk is chomped and stored; the load fails once `line_count` reaches
MAX_LINES, exactly as the `++line_count >= MAX_LINES` check does. -/
def load_file (f : List Char) : Option (List (List Char)) :=
  let ls := (splitFileAux f.length f).map chomp
  if MAX_LINES ≤ ls.length then none else some ls

/-- Translation of the `write_file` loop: each stored line followed by a
single LF, regardless of how the line was originally terminated. -/
def write_file : List (List Char) → List Char
  | [] => []
  | l :: t => l ++ '\n' :: write_file t

/-- Serialization of lines with CRLF endings; used to state the CRLF half of
the round-trip property (it describes an input file, not code of the
editor). -/
def write_crlf : List (List Char) → List Char
  | [] => []
  | l :: t => l ++ '\r' :: '\n' :: write_crlf t

/-- Translation of `strstr`: position of the first occurrence of `pat` in
`s`; an empty pattern matches at position 0. -/
def strstrPos : List Char → List Char → Option Nat
  | [], pat => if pat.isEmpty then some 0 else none
  | c :: t, pat =>
    if pat.isPrefixOf (c :: t) then some 0 else (strstrPos t pat).map (· + 1)

/-- One substitution step of `replace_in_line`: locate the first occurrence
of `oldp` and rebuild prefix + newp + suffix, unless the C size test
`prefix + sn + suffix + 1 >= LINE_LEN` rejects it.  This is the loop body
factored out so the loop can be characterised as its iteration. -/
def substStep (oldp newp s : List Char) : Option (List Char) :=
  match strstrPos s oldp with
  | none => none
  | some i =>
    if LINE_LEN ≤ i + newp.length + (s.length - (i + oldp.length)) + 1 then none
    else some (s.take i ++ newp ++ s.drop (i + oldp.length))

/-- Iteration of `substStep` a given number of times; `some` means every one
of the steps found a fitting occurrence. -/
def substIter (oldp newp : List Char) : Nat → List Char → Option (List Char)
  | 0, s => some s
  | n + 1, s => (substStep oldp newp s).bind (substIter oldp newp n)

/-- Translation of the `replace_in_line` loop.  The C code starts `limit` at
1024 and breaks once `--limit <= 0` after a substitution, so at most 1024
substitutions happen; here `fuel` counts the substitutions still allowed
after the current one, and the loop is entered with `fuel = 1023`. -/
def replaceGo (oldp newp : List Char) (global : Bool) (fuel : Nat)
    (s : List Char) (made : Nat) : List Char × Nat :=
  match strstrPos s oldp with
  | none => (s, made)
  | some i =>
    if LINE_LEN ≤ i + newp.length + (s.length - (i + oldp.length)) + 1 then
      (s, made)
    else
      let s2 := s.take i ++ newp ++ s.drop (i + oldp.length)
      if global then
        match fuel with
        | 0 => (s2, made + 1)
        | f + 1 => replaceGo oldp newp global f s2 (made + 1)
      else (s2, made + 1)

/-- Translation of `replace_in_line`: an empty old pattern is a no-op,
otherwise the substitution loop runs with its 1024-substitution cap. -/
def replace_in_line (s oldp newp : List Char) (global : Bool) : List Char × Nat :=
  if oldp.length = 0 then (s, 0) else replaceGo oldp newp global 1023 s 0

/-- Translation of `make_room`: shift the lines at or after `pos` forward by
`count` slots and commit the larger `line_count`; a non-positive count is a
trivial success, and the call fails with no mutation when the result would
exceed MAX_LINES.  The vacated slots keep their previous (stale) values,
exactly as the C pointer array does. -/
def make_room (d : Doc) (pos count : Nat) : Doc × Bool :=
  if count = 0 then (d, true)
  else if MAX_LINES < d.line_count + count then (d, false)
  else
    ({ lines := fun i =>
         if pos + count ≤ i ∧ i < d.line_count + count then d.lines (i - count)
         else d.lines i,
       line_count := d.line_count + count }, true)

/-- Translation of `close_gap`: shift every line after the gap back by
`count` slots and shrink `line_count`. -/
def close_gap (d : Doc) (start count : Nat) : Doc :=
  { lines := fun i =>
      if start ≤ i ∧ i + count < d.line_count then d.lines (i + count)
      else d.lines i,
    line_count := d.line_count - count }

/-- Translation of `free_line`: clear slot `idx` when it is live and
non-null; otherwise the call does nothing (the conditional write is pushed
into the slot function, which leaves the same store). -/
def free_line (d : Doc) (idx : Nat) : Doc :=
  { d with lines := fun i =>
      if idx < d.line_count ∧ (d.lines idx).isSome ∧ i = idx then none
      else d.lines i }

/-- Installation of a fresh buffer in slot `idx` (the `lines[idx] = xstrdup(..)`
pattern; the old buffer is freed by the caller where the C code does so). -/
def set_line (d : Doc) (idx : Nat) (s : List Char) : Doc :=
  { d with lines := fun i => if i = idx then some s else d.lines i }

/-- The clamp of the Insert command's start position in `cmd_insert`: any
`n` outside `[1, line_count + 1]` becomes `line_count + 1`, the end of the
document. -/
def insert_start (lc : Nat) (n : Int) : Int :=
  if n < 1 ∨ (lc : Int) + 1 < n then (lc : Int) + 1 else n

/-- One iteration of the `cmd_insert` read loop: open one slot at `pos` with
`make_room` and install the accepted line there. -/
def insert_one (d : Doc) (pos : Nat) (s : List Char) : Doc × Bool :=
  let r := make_room d pos 1
  if r.2 then (set_line r.1 pos s, true) else (r.1, false)

/-- The `cmd_insert` read loop over the given input lines (the terminating
"." sentinel excluded); it stops early when `make_room` fails and returns
the final `pos`. -/
def insert_loop : Doc → Nat → List (List Char) → Doc × Nat
  | d, pos, [] => (d, pos)
  | d, pos, s :: rest =>
    let r := insert_one d pos s
    if r.2 then insert_loop r.1 (pos + 1) rest else (r.1, pos)

/-- Append of one empty line at the end of the store (the loop body of
`ensure_line_exists`). -/
def push_empty (d : Doc) : Doc :=
  { lines := fun i => if i = d.line_count then some [] else d.lines i,
    line_count := d.line_count + 1 }

/-- The `ensure_line_exists` while-loop with explicit fuel; each iteration
appends one line, so `line_idx + 1 - line_count` iterations suffice. -/
def ensureAux : Nat → Doc → Doc
  | 0, d => d
  | k + 1, d => if d.line_count < MAX_LINES then ensureAux k (push_empty d) else d

/-- Translation of `ensure_line_exists`: append empty lines until `line_idx`
is a live slot, stopping silently at MAX_LINES. -/
def ensure_line_exists (d : Doc) (line_idx : Nat) : Doc :=
  ensureAux (line_idx + 1 - d.line_count) d

/-- The index sequence `i = a, a+1, ..., b` of the C for-loops over a line
range (empty when `b < a`). -/
def rangeInts (a b : Int) : List Int :=
  (List.range (b + 1 - a).toNat).map (fun k => a + (k : Int))

/-- The 0-based index sequence `lo, ..., hi` of the free loop in
`cmd_delete`. -/
def natRange (lo hi : Nat) : List Nat :=
  (List.range (hi + 1 - lo)).map (lo + ·)

/-- Semantic model of the bytes a command prints: listed lines (with the
0-based number the C code prints), counts, and one-line notes. -/
inductive Out where
  | line (number : Int) (text : List Char)
  | count (n : Nat)
  | note
deriving DecidableEq

/-- Translation of `cmd_list`: clamp the range, print every line of it that
lies in `[1, line_count]`, and yield the clamped range for the last-range
update; an empty document prints a note and updates nothing. -/
def cmd_list (d : Doc) (a b : Int) : Option (Int × Int) × List Out :=
  let p := to_range_defaults (d.line_count : Int) a b
  if d.line_count = 0 then (none, [Out.note])
  else
    (some p, (rangeInts p.1 p.2).filterMap (fun i =>
      if 1 ≤ i ∧ i ≤ (d.line_count : Int) then
        some (Out.line (i - 1) ((d.lines (i.toNat - 1)).getD []))
      else none))

/-- The `free_line` loop of `cmd_delete` over a list of 0-based indices. -/
def free_lines_list (d : Doc) (idxs : List Nat) : Doc :=
  idxs.foldl free_line d

/-- The clamping phase of `cmd_delete`: `to_range_defaults` followed by the
re-clamp of both ends against `line_count` and the empty/inverted-range
check; `none` means the command no-ops, `some (a, b)` is the effective
1-based inclusive range. -/
def delete_clamp (lc : Nat) (a b : Int) : Option (Nat × Nat) :=
  let p := to_range_defaults (lc : Int) a b
  let a1 := if p.1 < 1 then 1 else p.1
  let b1 := if (lc : Int) < p.2 then (lc : Int) else p.2
  if lc = 0 ∨ b1 < a1 then none else some (a1.toNat, b1.toNat)

/-- Translation of `cmd_delete`: clamp the range, then free the selected
lines and close the gap; the second component is the last-range update
(`none` when the command no-ops without touching it). -/
def cmd_delete (d : Doc) (a b : Int) : Doc × Option (Int × Int) :=
  match delete_clamp d.line_count a b with
  | none => (d, none)
  | some (a2, b2) =>
    let d1 := free_lines_list d (natRange (a2 - 1) (b2 - 1))
    let d2 := close_gap d1 (a2 - 1) (b2 - a2 + 1)
    (d2, some ((a2 : Int),
      if (a2 : Int) ≤ (d2.line_count : Int) then (a2 : Int) else (d2.line_count : Int)))

/-- Translation of `cmd_insert`: clamp the start position, run the read
loop, and yield the `last_a = n` / `last_b = pos` updates. -/
def cmd_insert (d : Doc) (n : Int) (input : List (List Char)) : Doc × Int × Int :=
  let n1 := insert_start d.line_count n
  let r := insert_loop d (n1.toNat - 1) input
  (r.1, n1, (r.2 : Int))

/-- Translation of `cmd_edit`: an out-of-range `n` reports an error without
mutation; otherwise the old line is echoed, freed and replaced, and the last
range becomes `(n, n)`. -/
def cmd_edit (d : Doc) (n : Int) (repl : List Char) : Doc × Option (Int × Int) × List Out :=
  if n < 1 ∨ (d.line_count : Int) < n then (d, none, [Out.note])
  else
    (set_line (free_line d (n.toNat - 1)) (n.toNat - 1) repl,
     some (n, n),
     [Out.line (n - 1) ((d.lines (n.toNat - 1)).getD [])])

/-- The per-line loop of `cmd_replace` over the clamped index range,
accumulating the total substitution count. -/
def replace_range (d : Doc) (idxs : List Int) (oldp newp : List Char)
    (global : Bool) : Doc × Nat :=
  idxs.foldl (fun acc i =>
    if 1 ≤ i ∧ i ≤ (acc.1.line_count : Int) then
      match acc.1.lines (i.toNat - 1) with
      | none => acc
      | some s =>
        let r := replace_in_line s oldp newp global
        (set_line acc.1 (i.toNat - 1) r.1, acc.2 + r.2)
    else acc) (d, 0)

/-- Translation of `cmd_replace` after its `/old/new/[g]` parsing: clamp the
range, substitute on every live line of it, and report the total together
with the clamped range for the last-range update. -/
def cmd_replace (d : Doc) (a b : Int) (oldp newp : List Char) (global : Bool) :
    Doc × (Int × Int) × Nat :=
  let p := to_range_defaults (d.line_count : Int) a b
  let r := replace_range d (rangeInts p.1 p.2) oldp newp global
  (r.1, p, r.2)

/-- The case-insensitive prefix test of the inner loop of
`strcasestr_pos`. -/
def ciLeads : List Char → List Char → Bool
  | [], _ => true
  | _ :: _, [] => false
  | a :: as, b :: bs => (a.toLower == b.toLower) && ciLeads as bs

/-- Translation of `strcasestr_pos`: first case-insensitive occurrence of
the needle; an empty needle matches at position 0. -/
def strcasestr_pos : List Char → List Char → Option Nat
  | [], needle => if needle.isEmpty then some 0 else none
  | c :: t, needle =>
    if ciLeads needle (c :: t) then some 0
    else (strcasestr_pos t needle).map (· + 1)

/-- Translation of `cmd_search` after pattern extraction: clamp the range
and print every live line of it containing the pattern case-insensitively,
then the match count. -/
def cmd_search (d : Doc) (a b : Int) (pat : List Char) : (Int × Int) × List Out :=
  let p := to_range_defaults (d.line_count : Int) a b
  let hits := (rangeInts p.1 p.2).filterMap (fun i =>
    if 1 ≤ i ∧ i ≤ (d.line_count : Int) then
      match d.lines (i.toNat - 1) with
      | none => none
      | some s =>
        if (strcasestr_pos s pat).isSome then some (Out.line (i - 1) s) else none
    else none)
  (p, hits ++ [Out.count hits.length])

/-- REPL commands after argument parsing (the parsers read no editor
state beyond what their arguments carry). -/
inductive Cmd where
  | list (a b : Int)
  | insert (n : Int) (input : List (List Char))
  | delete (a b : Int)
  | edit (n : Int) (repl : List Char)
  | replace (a b : Int) (oldp newp : List Char) (global : Bool)
  | search (a b : Int) (pat : List Char)

/-- One REPL command step over the full editor state: run the command on the
document and apply its `last_a` / `last_b` updates, exactly where the C
command bodies perform them. -/
def execCmd : Cmd → Ed → Ed × List Out
  | .list a b, st =>
    let r := cmd_list st.doc a b
    (match r.1 with
     | none => (st, r.2)
     | some p => ({ st with last_a := p.1, last_b := p.2 }, r.2))
  | .insert n input, st =>
    let r := cmd_insert st.doc n input
    ({ st with doc := r.1, last_a := r.2.1, last_b := r.2.2 }, [])
  | .delete a b, st =>
    let r := cmd_delete st.doc a b
    (match r.2 with
     | none => ({ st with doc := r.1 }, [])
     | some p => ({ st with doc := r.1, last_a := p.1, last_b := p.2 }, []))
  | .edit n repl, st =>
    let r := cmd_edit st.doc n repl
    (match r.2.1 with
     | none => ({ st with doc := r.1 }, r.2.2)
     | some p => ({ st with doc := r.1, last_a := p.1, last_b := p.2 }, r.2.2))
  | .replace a b oldp newp g, st =>
    let r := cmd_replace st.doc a b oldp newp g
    ({ st with doc := r.1, last_a := r.2.1.1, last_b := r.2.1.2 }, [Out.count r.2.2])
  | .search a b pat, st =>
    let r := cmd_search st.doc a b pat
    ({ st with last_a := r.1.1, last_b := r.1.2 }, r.2)

/-- Translation of the visual editor's `delete_char`: erase the byte under
the cursor, or join the next line onto the current one when the cursor sits
at end of line (silently skipped when the joined line would not fit). -/
def delete_char (st : Ed) : Ed :=
  if st.doc.line_count ≤ st.cursor_row then st
  else
    let line := (st.doc.lines st.cursor_row).getD []
    if line.length ≤ st.cursor_col then
      if st.cursor_row + 1 < st.doc.line_count then
        let nxt := (st.doc.lines (st.cursor_row + 1)).getD []
        if line.length + nxt.length < LINE_LEN then
          let d1 := set_line st.doc st.cursor_row (line ++ nxt)
          let d2 := free_line d1 (st.cursor_row + 1)
          { st with doc := close_gap d2 (st.cursor_row + 1) 1 }
        else st
      else st
    else
      let erased := line.take st.cursor_col ++ line.drop (st.cursor_col + 1)
      { st with doc := set_line st.doc st.cursor_row erased }

/-- Translation of the visual editor's `backspace_char`: delete the byte
before the cursor, or move to the end of the previous line and join. -/
def backspace_char (st : Ed) : Ed :=
  if 0 < st.cursor_col then
    delete_char { st with cursor_col := st.cursor_col - 1 }
  else if 0 < st.cursor_row then
    let r := st.cursor_row - 1
    delete_char
      { st with cursor_row := r,
                cursor_col := ((st.doc.lines r).getD []).length }
  else st

/-- Translation of the visual editor's `insert_newline`: split the current
line at the cursor column (clamped to the line length, as the C code does
before its capacity check), the tail becoming a fresh next line, and move
the cursor to the start of that line. -/
def insert_newline (st : Ed) : Ed :=
  let d0 := ensure_line_exists st.doc st.cursor_row
  let line := (d0.lines st.cursor_row).getD []
  let col := if line.length < st.cursor_col then line.length else st.cursor_col
  if MAX_LINES ≤ d0.line_count then { st with doc := d0, cursor_col := col }
  else
    let r := make_room d0 (st.cursor_row + 1) 1
    if r.2 then
      let d1 := set_line r.1 (st.cursor_row + 1) (line.drop col)
      let d2 := set_line d1 st.cursor_row (line.take col)
      { st with doc := d2, cursor_row := st.cursor_row + 1, cursor_col := 0 }
    else { st with doc := r.1, cursor_col := col }

/-- The store invariant of the specification: every live slot holds a
non-null buffer. -/
def Valid (d : Doc) : Prop :=
  ∀ i, i < d.line_count → (d.lines i).isSome = true

/-- A store holding MAX_LINES single-character lines (witness input). -/
def docFull : Doc :=
  { lines := fun _ => some ['x'], line_count := MAX_LINES }

/-- A one-line store holding the line "abcdef" (witness input). -/
def docOne : Doc :=
  { lines := fun i => if i = 0 then some ['a', 'b', 'c', 'd', 'e', 'f'] else none,
    line_count := 1 }

/-- An editor state over `docOne` with the cursor at row 0, column 3
(witness input). -/
def edOne : Ed :=
  { doc := docOne, cursor_row := 0, cursor_col := 3, last_a := 1, last_b := 0 }

/-- A three-line store (witness input). -/
def docThree : Doc :=
  { lines := fun i =>
      if i = 0 then some ['p'] else if i = 1 then some ['q'] else
      if i = 2 then some ['r'] else none,
    line_count := 3 }

/-- Claim C1, counterexample: with `line_count = 5 > 0` and resolved
endpoints `(a, b) = (10, 3)`, the clamp/swap step returns `(3, 10)`, whose
second component exceeds `line_count`, so `1 ≤ a ≤ b ≤ line_count` fails
after `to_range_defaults`. -/
theorem C1_counterexample :
    (0 : Int) < 5 ∧ to_range_defaults 5 10 3 = (3, 10) ∧
    ¬ ((to_range_defaults 5 10 3).2 ≤ 5) := by decide

/-- Claim C1 (amended): for every resolved pair and `line_count > 0`, after
`to_range_defaults` the result satisfies `1 ≤ a`, `a ≤ b` and
`a ≤ line_count`; the remaining bound `b ≤ line_count` holds whenever the
incoming `a` did not already exceed `line_count` (the swap branch can move an
over-range `a` into `b`, as the counterexample shows). -/
theorem C1_range_clamp (lc a b : Int) (h : 0 < lc) :
    1 ≤ (to_range_defaults lc a b).1 ∧
    (to_range_defaults lc a b).1 ≤ (to_range_defaults lc a b).2 ∧
    (to_range_defaults lc a b).1 ≤ lc ∧
    (a ≤ lc → (to_range_defaults lc a b).2 ≤ lc) := by
  simp only [to_range_defaults]
  split_ifs <;> simp_all <;> omega

/-- Witness for C1_range_clamp at `line_count = 5`, `(a, b) = (2, 4)`. -/
theorem C1_range_clamp_witness :
    1 ≤ (to_range_defaults 5 2 4).1 ∧
    (to_range_defaults 5 2 4).1 ≤ (to_range_defaults 5 2 4).2 ∧
    (to_range_defaults 5 2 4).1 ≤ 5 ∧
    (to_range_defaults 5 2 4).2 ≤ 5 :=
  ⟨(C1_range_clamp 5 2 4 (by decide)).1,
   (C1_range_clamp 5 2 4 (by decide)).2.1,
   (C1_range_clamp 5 2 4 (by decide)).2.2.1,
   (C1_range_clamp 5 2 4 (by decide)).2.2.2 (by decide)⟩

/-- Claim C4: on the single line "aaa" with old "a" and new "b", the
substitution engine yields count 3 and "bbb" globally, and count 1 and
"baa" in first-match mode. -/
theorem C4_replace_examples :
    replace_in_line ['a', 'a', 'a'] ['a'] ['b'] true = (['b', 'b', 'b'], 3) ∧
    replace_in_line ['a', 'a', 'a'] ['a'] ['b'] false = (['b', 'a', 'a'], 1) := by
  decide

/-- Claim C5, counterexample: with `line_count = 5`, the start position
`n = 0 < 1` is replaced by `line_count + 1 = 6` (the end of the document),
not clamped to 1 as the claim states. -/
theorem C5_counterexample :
    insert_start 5 0 = 6 ∧ insert_start 5 0 ≠ 1 := by decide

/-- Claim C5 (amended): the effective insertion position always lies in
`[1, line_count + 1]`; it is `n` itself whenever `n` lies in that interval,
and any `n` outside it — in particular any `n < 1` — is replaced by
`line_count + 1`, the end of the document (which is also the default when no
argument is given). -/
theorem C5_insert_clamp (lc : Nat) (n : Int) :
    1 ≤ insert_start lc n ∧ insert_start lc n ≤ (lc : Int) + 1 ∧
    ((1 ≤ n ∧ n ≤ (lc : Int) + 1) → insert_start lc n = n) ∧
    ((n < 1 ∨ (lc : Int) + 1 < n) → insert_start lc n = (lc : Int) + 1) := by
  unfold insert_start
  split_ifs with h <;>
    exact ⟨by omega, by omega, fun hh => by omega, fun hh => by omega⟩

/-- Witness for C5_insert_clamp: the in-range position `n = 3` passes
through unchanged, and the out-of-range `n = 0` lands at the end, both with
`line_count = 5`. -/
theorem C5_insert_clamp_witness :
    insert_start 5 3 = 3 ∧
    1 ≤ insert_start 5 0 ∧ insert_start 5 0 ≤ ((5 : Nat) : Int) + 1 ∧
    insert_start 5 0 = ((5 : Nat) : Int) + 1 :=
  ⟨(C5_insert_clamp 5 3).2.2.1 (by decide),
   (C5_insert_clamp 5 0).1, (C5_insert_clamp 5 0).2.1,
   (C5_insert_clamp 5 0).2.2.2 (by decide)⟩

/-- Claim C6: `make_room` fails and performs no mutation whatever whenever
the resulting size would exceed MAX_LINES; in particular, with the store at
MAX_LINES lines, inserting one more line fails and leaves the store — and
hence `line_count` — untouched. -/
theorem C6_capacity :
    (∀ (d : Doc) (pos count : Nat), 1 ≤ count →
      MAX_LINES < d.line_count + count → make_room d pos count = (d, false)) ∧
    (∀ (d : Doc) (pos : Nat) (s : List Char), d.line_count = MAX_LINES →
      insert_one d pos s = (d, false)) := by
  constructor
  · intro d pos count h1 h2
    unfold make_room
    rw [if_neg (by omega), if_pos h2]
  · intro d pos s h
    unfold insert_one
    have hm : make_room d pos 1 = (d, false) := by
      unfold make_room
      rw [if_neg (by omega), if_pos (by omega)]
    rw [hm]
    simp

/-- Witness for C6_capacity on a concrete full store. -/
theorem C6_capacity_witness :
    make_room docFull 0 1 = (docFull, false) ∧
    insert_one docFull 0 ['a'] = (docFull, false) :=
  ⟨C6_capacity.1 docFull 0 1 (by decide) (by decide),
   C6_capacity.2 docFull 0 ['a'] (by decide)⟩

/-- Characterisation of the replace_in_line loop: the result is the input
with exactly `k` first-occurrence substitutions applied (each of which
passed the size test), the returned count advances by `k`, `k` respects the
global/first-match and fuel bounds, and unless the fuel cap was hit the loop
stopped because no further substitution applies (no occurrence, or the
rebuilt line would not fit). -/
theorem replaceGo_spec (oldp newp : List Char) (g : Bool) :
    ∀ (fuel : Nat) (s : List Char) (made : Nat), ∃ k : Nat,
      (replaceGo oldp newp g fuel s made).2 = made + k ∧
      substIter oldp newp k s = some (replaceGo oldp newp g fuel s made).1 ∧
      k ≤ (if g then fuel + 1 else 1) ∧
      (k < (if g then fuel + 1 else 1) →
        substStep oldp newp (replaceGo oldp newp g fuel s made).1 = none) := by
  intro fuel
  induction fuel with
  | zero =>
    intro s made
    unfold replaceGo
    cases hstr : strstrPos s oldp with
    | none =>
      refine ⟨0, by simp, by simp [substIter], by omega, fun _ => ?_⟩
      simp [substStep, hstr]
    | some i =>
      dsimp only
      by_cases hfit : LINE_LEN ≤ i + newp.length + (s.length - (i + oldp.length)) + 1
      · rw [if_pos hfit]
        refine ⟨0, by simp, by simp [substIter], by omega, fun _ => ?_⟩
        simp [substStep, hstr, hfit]
      · rw [if_neg hfit]
        have hsub : substStep oldp newp s
            = some (s.take i ++ newp ++ s.drop (i + oldp.length)) := by
          simp [substStep, hstr, hfit]
        cases g with
        | false =>
          exact ⟨1, by simp, by simp [substIter, hsub], by simp,
            fun hk => absurd hk (by simp)⟩
        | true =>
          exact ⟨1, by simp, by simp [substIter, hsub], by simp,
            fun hk => absurd hk (by simp)⟩
  | succ f IH =>
    intro s made
    unfold replaceGo
    cases hstr : strstrPos s oldp with
    | none =>
      refine ⟨0, by simp, by simp [substIter], by omega, fun _ => ?_⟩
      simp [substStep, hstr]
    | some i =>
      dsimp only
      by_cases hfit : LINE_LEN ≤ i + newp.length + (s.length - (i + oldp.length)) + 1
      · rw [if_pos hfit]
        refine ⟨0, by simp, by simp [substIter], by omega, fun _ => ?_⟩
        simp [substStep, hstr, hfit]
      · rw [if_neg hfit]
        have hsub : substStep oldp newp s
            = some (s.take i ++ newp ++ s.drop (i + oldp.length)) := by
          simp [substStep, hstr, hfit]
        cases g with
        | false =>
          exact ⟨1, by simp, by simp [substIter, hsub], by simp,
            fun hk => absurd hk (by simp)⟩
        | true =>
          obtain ⟨k2, h1, h2, h3, h4⟩ :=
            IH (s.take i ++ newp ++ s.drop (i + oldp.length)) (made + 1)
          have h3n : k2 ≤ f + 1 := h3
          refine ⟨k2 + 1, ?_, ?_, ?_, ?_⟩
          · show (replaceGo oldp newp true f
                (s.take i ++ newp ++ s.drop (i + oldp.length)) (made + 1)).2
              = made + (k2 + 1)
            omega
          · show (substStep oldp newp s).bind (substIter oldp newp k2)
              = some (replaceGo oldp newp true f
                  (s.take i ++ newp ++ s.drop (i + oldp.length)) (made + 1)).1
            rw [hsub]
            exact h2
          · show k2 + 1 ≤ f + 1 + 1
            omega
          · intro hk
            have hkn : k2 + 1 < f + 1 + 1 := hk
            exact h4 (show k2 < f + 1 by omega)

set_option maxRecDepth 8000 in
/-- Claim C3, counterexample: substituting 255 "b"s for the "a" in the
one-byte line "a" would produce a line of exactly 255 = LINE_LEN - 1 bytes,
which by the claim does not exceed the limit and should be applied; yet the
code applies no substitution and returns count 0. -/
theorem C3_counterexample :
    (['a'].take 0 ++ List.replicate 255 'b' ++ ['a'].drop 1).length = LINE_LEN - 1 ∧
    replace_in_line ['a'] ['a'] (List.replicate 255 'b') true = (['a'], 0) := by
  decide

/-- Claim C3 (amended): for a non-empty old pattern, the returned line is
the input with exactly `count` first-occurrence substitutions applied, each
applied only because the rebuilt line stays at or below LINE_LEN - 2 = 254
bytes (the C size test rejects results of 255 bytes and more); when the loop
stops before the first-match bound (non-global) or the 1024-substitution cap
(global), it is because no further substitution applies — either no
occurrence remains or the next result would not fit — so everything already
applied stands and the count reports exactly the applied substitutions. -/
theorem C3_replace_loop (s oldp newp : List Char) (g : Bool) (h : oldp ≠ []) :
    substIter oldp newp (replace_in_line s oldp newp g).2 s
      = some (replace_in_line s oldp newp g).1 ∧
    (replace_in_line s oldp newp g).2 ≤ (if g then 1024 else 1) ∧
    ((replace_in_line s oldp newp g).2 < (if g then 1024 else 1) →
      substStep oldp newp (replace_in_line s oldp newp g).1 = none) := by
  have hlen : ¬ oldp.length = 0 := by simpa using h
  unfold replace_in_line
  rw [if_neg hlen]
  obtain ⟨k, h1, h2, h3, h4⟩ := replaceGo_spec oldp newp g 1023 s 0
  rw [h1] at *
  refine ⟨by simpa using h2, ?_, ?_⟩
  · cases g <;> simp_all
  · intro hk
    apply h4
    cases g <;> simp_all

/-- Witness for C3_replace_loop on the line "aa", old "a", new "b",
global. -/
theorem C3_replace_loop_witness :
    substIter ['a'] ['b'] (replace_in_line ['a', 'a'] ['a'] ['b'] true).2 ['a', 'a']
      = some (replace_in_line ['a', 'a'] ['a'] ['b'] true).1 ∧
    (replace_in_line ['a', 'a'] ['a'] ['b'] true).2 ≤ (if true then 1024 else 1) ∧
    ((replace_in_line ['a', 'a'] ['a'] ['b'] true).2 < (if true then 1024 else 1) →
      substStep ['a'] ['b'] (replace_in_line ['a', 'a'] ['a'] ['b'] true).1 = none) :=
  C3_replace_loop ['a', 'a'] ['a'] ['b'] true (by decide)

/-- Chomp of an LF-terminated line: the LF goes, and the content stays
provided it does not itself end in a CR (a CR there would make the line
CRLF-terminated and be stripped too). -/
theorem chomp_lf (l : List Char) (h : l.getLast? ≠ some '\r') :
    chomp (l ++ ['\n']) = l := by
  simp [chomp, List.getLast?_concat, List.dropLast_concat, h]

/-- Chomp of a CRLF-terminated line: both terminator bytes go. -/
theorem chomp_crlf (l : List Char) : chomp (l ++ ['\r', '\n']) = l := by
  have h2 : l ++ ['\r', '\n'] = (l ++ ['\r']) ++ ['\n'] := by
    rw [List.append_assoc]; rfl
  rw [h2]
  simp [chomp, List.getLast?_concat, List.dropLast_concat]

/-- One fgets call on a stream starting with a newline-terminated line
shorter than the buffer returns exactly that line with its newline. -/
theorem fgetsChunk_line :
    ∀ (l : List Char) (n : Nat) (rest : List Char), l.length < n → '\n' ∉ l →
      fgetsChunk n (l ++ '\n' :: rest) = l ++ ['\n'] := by
  intro l
  induction l with
  | nil =>
    intro n rest hn _
    match n, hn with
    | n + 1, _ => simp [fgetsChunk]
  | cons c t IH =>
    intro n rest hn hmem
    match n, hn with
    | n + 1, hn =>
      have hc : ¬ (c = '\n') := fun hcc => hmem (by simp [hcc])
      have hn2 : t.length < n := by simp at hn; omega
      show fgetsChunk (n + 1) (c :: (t ++ '\n' :: rest)) = c :: (t ++ ['\n'])
      rw [fgetsChunk, if_neg hc,
        IH n rest hn2 (fun hm => hmem (List.mem_cons_of_mem c hm))]

/-- The fgets loop on a serialized document returns exactly the lines, each
with its newline, provided each line fits one fgets buffer. -/
theorem splitFileAux_write :
    ∀ (ls : List (List Char)) (fuel : Nat),
      (∀ l ∈ ls, l.length ≤ LINE_LEN - 2 ∧ '\n' ∉ l) →
      (write_file ls).length ≤ fuel →
      splitFileAux fuel (write_file ls) = ls.map (fun l => l ++ ['\n']) := by
  intro ls
  induction ls with
  | nil =>
    intro fuel _ _
    cases fuel <;> simp [splitFileAux, write_file]
  | cons l t IH =>
    intro fuel hgood hfuel
    have hl := hgood l (List.mem_cons_self l t)
    match fuel with
    | 0 =>
      exfalso
      rw [write_file] at hfuel
      simp at hfuel
    | fuel + 1 =>
      rw [write_file] at hfuel ⊢
      have hchunk : fgetsChunk (LINE_LEN - 1) (l ++ '\n' :: write_file t)
          = l ++ ['\n'] :=
        fgetsChunk_line l (LINE_LEN - 1) (write_file t)
          (by have := hl.1; unfold LINE_LEN at *; omega) hl.2
      have hsplit : l ++ '\n' :: write_file t = (l ++ ['\n']) ++ write_file t := by
        rw [List.append_assoc]; rfl
      have hdrop : (l ++ '\n' :: write_file t).drop ((l ++ ['\n']).length)
          = write_file t := by
        rw [hsplit, List.drop_left]
      rw [splitFileAux, if_neg (by simp)]
      simp only [hchunk, hdrop]
      have hfuel2 : (write_file t).length ≤ fuel := by
        simp at hfuel; omega
      rw [IH fuel (fun x hx => hgood x (List.mem_cons_of_mem l hx)) hfuel2]
      simp

/-- Loading a serialized document yields back exactly its lines, under the
per-line conditions of the round-trip property. -/
theorem load_write_lf (ls : List (List Char))
    (hgood : ∀ l ∈ ls, l.length ≤ LINE_LEN - 2 ∧ '\n' ∉ l ∧ l.getLast? ≠ some '\r')
    (hc : ls.length < MAX_LINES) :
    load_file (write_file ls) = some ls := by
  unfold load_file
  rw [splitFileAux_write ls (write_file ls).length
    (fun l hl => ⟨(hgood l hl).1, (hgood l hl).2.1⟩) le_rfl]
  rw [List.map_map]
  have hmap : ls.map (chomp ∘ fun l => l ++ ['\n']) = ls.map id :=
    List.map_congr_left (fun l hl => chomp_lf l (hgood l hl).2.2)
  rw [hmap, List.map_id]
  rw [if_neg (by simp; omega)]

/-- A CRLF-serialized document is the LF serialization of the same lines
with a CR appended to each. -/
theorem write_crlf_eq (ls : List (List Char)) :
    write_crlf ls = write_file (ls.map (fun l => l ++ ['\r'])) := by
  induction ls with
  | nil => rfl
  | cons l t IH => simp [write_crlf, write_file, IH]

/-- Loading a CRLF-serialized document also yields back exactly its lines
(the CRs are chomped away), under the corresponding size condition. -/
theorem load_write_crlf (ls : List (List Char))
    (hgood : ∀ l ∈ ls, l.length ≤ LINE_LEN - 3 ∧ '\n' ∉ l)
    (hc : ls.length < MAX_LINES) :
    load_file (write_crlf ls) = some ls := by
  rw [write_crlf_eq]
  unfold load_file
  rw [splitFileAux_write (ls.map (fun l => l ++ ['\r']))
    (write_file (ls.map (fun l => l ++ ['\r']))).length ?cond le_rfl]
  case cond =>
    intro l hl
    simp only [List.mem_map] at hl
    obtain ⟨x, hx, rfl⟩ := hl
    refine ⟨by have := (hgood x hx).1; simp; unfold LINE_LEN at *; omega, ?_⟩
    simp
    exact fun hm => absurd hm (hgood x hx).2
  rw [List.map_map, List.map_map]
  have hmap : ls.map ((chomp ∘ fun l => l ++ ['\n']) ∘ fun l => l ++ ['\r'])
      = ls.map id := by
    refine List.map_congr_left (fun l hl => ?_)
    show chomp ((l ++ ['\r']) ++ ['\n']) = l
    rw [List.append_assoc]
    exact chomp_crlf l
  rw [hmap, List.map_id]
  rw [if_neg (by simp; omega)]

set_option maxRecDepth 8000 in
/-- Claim C2, counterexample: a file consisting of one LF-terminated line of
exactly 255 = LINE_LEN - 1 content bytes does not round-trip: the 255-byte
line overflows one fgets buffer, the load splits it into the line plus an
empty line, and the save emits an extra LF. -/
theorem C2_counterexample :
    write_file [List.replicate 255 'a'] = List.replicate 255 'a' ++ ['\n'] ∧
    (List.replicate 255 'a').length = LINE_LEN - 1 ∧
    (load_file (write_file [List.replicate 255 'a'])).map write_file
      = some (List.replicate 255 'a' ++ ['\n', '\n']) ∧
    List.replicate 255 'a' ++ ['\n', '\n'] ≠ write_file [List.replicate 255 'a'] := by
  decide

/-- Claim C2 (amended): for a document of fewer than MAX_LINES lines, none
containing LF, load-then-save is byte-identical to the original file when
every line together with its terminator fits the 255-byte fgets read — that
is, at most 254 content bytes for an LF-terminated line (not itself ending
in CR), and at most 253 content bytes for a CRLF-terminated line, which
round-trips to the same lines with LF endings.  A line of 255 content bytes
is split on load, as the counterexample shows. -/
theorem C2_roundtrip (ls : List (List Char)) (hc : ls.length < MAX_LINES)
    (hn : ∀ l ∈ ls, '\n' ∉ l) :
    ((∀ l ∈ ls, l.length ≤ LINE_LEN - 2 ∧ l.getLast? ≠ some '\r') →
      load_file (write_file ls) = some ls ∧
      (load_file (write_file ls)).map write_file = some (write_file ls)) ∧
    ((∀ l ∈ ls, l.length ≤ LINE_LEN - 3) →
      load_file (write_crlf ls) = some ls ∧
      (load_file (write_crlf ls)).map write_file = some (write_file ls)) := by
  constructor
  · intro hx
    have h1 := load_write_lf ls (fun l hl => ⟨(hx l hl).1, hn l hl, (hx l hl).2⟩) hc
    exact ⟨h1, by rw [h1]; rfl⟩
  · intro hx
    have h1 := load_write_crlf ls (fun l hl => ⟨hx l hl, hn l hl⟩) hc
    exact ⟨h1, by rw [h1]; rfl⟩

/-- Witness for C2_roundtrip on the one-line document "hi". -/
theorem C2_roundtrip_witness :
    load_file (write_file [['h', 'i']]) = some [['h', 'i']] ∧
    (load_file (write_file [['h', 'i']])).map write_file
      = some (write_file [['h', 'i']]) :=
  (C2_roundtrip [['h', 'i']] (by decide) (by decide)).1 (by decide)

/-- Field computation for set_line. -/
theorem set_line_lines (d : Doc) (idx : Nat) (s : List Char) (j : Nat) :
    (set_line d idx s).lines j = if j = idx then some s else d.lines j := rfl

/-- Field computation for set_line. -/
theorem set_line_count (d : Doc) (idx : Nat) (s : List Char) :
    (set_line d idx s).line_count = d.line_count := rfl

/-- Field computation for close_gap. -/
theorem close_gap_lines (d : Doc) (start count j : Nat) :
    (close_gap d start count).lines j
      = if start ≤ j ∧ j + count < d.line_count then d.lines (j + count)
        else d.lines j := rfl

/-- Field computation for close_gap. -/
theorem close_gap_count (d : Doc) (start count : Nat) :
    (close_gap d start count).line_count = d.line_count - count := rfl

/-- Freeing a slot does not change the line count. -/
theorem free_line_count (d : Doc) (idx : Nat) :
    (free_line d idx).line_count = d.line_count := rfl

/-- Slot-wise effect of free_line: a live slot named by the call becomes
none (it was either freed or already null), everything else is untouched. -/
theorem free_line_lines (d : Doc) (idx j : Nat) :
    (free_line d idx).lines j
      = if j = idx ∧ idx < d.line_count then none else d.lines j := by
  show (if idx < d.line_count ∧ (d.lines idx).isSome = true ∧ j = idx then none
    else d.lines j) = _
  by_cases h1 : idx < d.line_count ∧ (d.lines idx).isSome = true ∧ j = idx
  · rw [if_pos h1, if_pos ⟨h1.2.2, h1.1⟩]
  · rw [if_neg h1]
    by_cases h2 : j = idx ∧ idx < d.line_count
    · rw [if_pos h2]
      obtain ⟨rfl, hlt⟩ := h2
      cases hval : d.lines j with
      | none => rfl
      | some x => exact absurd ⟨hlt, by rw [hval]; rfl, rfl⟩ h1
    · rw [if_neg h2]

/-- The free loop of cmd_delete does not change the line count. -/
theorem free_lines_list_count (idxs : List Nat) :
    ∀ d : Doc, (free_lines_list d idxs).line_count = d.line_count := by
  induction idxs with
  | nil => intro d; rfl
  | cons x rest IH =>
    intro d
    show (free_lines_list (free_line d x) rest).line_count = d.line_count
    rw [IH, free_line_count]

/-- Slot-wise effect of the free loop of cmd_delete: live slots named by the
index list become none, everything else is untouched. -/
theorem free_lines_list_lines (idxs : List Nat) :
    ∀ (d : Doc) (j : Nat), (free_lines_list d idxs).lines j
      = if j ∈ idxs ∧ j < d.line_count then none else d.lines j := by
  induction idxs with
  | nil => intro d j; simp [free_lines_list]
  | cons x rest IH =>
    intro d j
    show (free_lines_list (free_line d x) rest).lines j = _
    rw [IH, free_line_count, free_line_lines]
    by_cases h1 : j ∈ rest ∧ j < d.line_count
    · rw [if_pos h1, if_pos ⟨List.mem_cons_of_mem x h1.1, h1.2⟩]
    · rw [if_neg h1]
      by_cases h2 : j = x ∧ x < d.line_count
      · rw [if_pos h2, if_pos ⟨by simp [h2.1], by omega⟩]
      · rw [if_neg h2]
        by_cases h3 : j ∈ x :: rest ∧ j < d.line_count
        · exfalso
          rcases List.mem_cons.mp h3.1 with h | h
          · exact h2 ⟨h, by omega⟩
          · exact h1 ⟨h, h3.2⟩
        · rw [if_neg h3]

/-- Membership in the 0-based index range of the cmd_delete free loop. -/
theorem mem_natRange (lo hi j : Nat) :
    j ∈ natRange lo hi ↔ lo ≤ j ∧ j < lo + (hi + 1 - lo) := by
  unfold natRange
  simp only [List.mem_map, List.mem_range]
  constructor
  · rintro ⟨k, hk, rfl⟩
    omega
  · intro h
    exact ⟨j - lo, by omega, by omega⟩

/-- make_room on an in-capacity store commits the shift. -/
theorem make_room_succ (d : Doc) (pos count : Nat) (h0 : count ≠ 0)
    (h1 : d.line_count + count ≤ MAX_LINES) :
    make_room d pos count =
      ({ lines := fun i =>
           if pos + count ≤ i ∧ i < d.line_count + count then d.lines (i - count)
           else d.lines i,
         line_count := d.line_count + count }, true) := by
  unfold make_room
  rw [if_neg h0, if_neg (by omega)]

/-- make_room over capacity fails with no mutation. -/
theorem make_room_fail (d : Doc) (pos count : Nat) (h0 : count ≠ 0)
    (h1 : MAX_LINES < d.line_count + count) :
    make_room d pos count = (d, false) := by
  unfold make_room
  rw [if_neg h0, if_pos h1]

/-- A failed make_room returns the store unchanged. -/
theorem make_room_false_eq (d : Doc) (pos count : Nat)
    (h : (make_room d pos count).2 = false) : (make_room d pos count).1 = d := by
  unfold make_room at *
  split_ifs at h ⊢
  · rfl

/-- insert_one at capacity fails with no mutation. -/
theorem insert_one_fail (d : Doc) (pos : Nat) (s : List Char)
    (h : MAX_LINES ≤ d.line_count) : insert_one d pos s = (d, false) := by
  unfold insert_one
  rw [make_room_fail d pos 1 (by omega) (by omega)]
  simp

/-- A successful insert_one grows the store by one line. -/
theorem insert_one_true_count (d : Doc) (pos : Nat) (s : List Char)
    (h : (insert_one d pos s).2 = true) :
    (insert_one d pos s).1.line_count = d.line_count + 1 := by
  by_cases hcap : MAX_LINES ≤ d.line_count
  · rw [insert_one_fail d pos s hcap] at h
    exact absurd h (by simp)
  · unfold insert_one
    rw [make_room_succ d pos 1 (by omega) (by omega)]
    rfl

/-- A failed insert_one leaves the store unchanged. -/
theorem insert_one_false_eq (d : Doc) (pos : Nat) (s : List Char)
    (h : (insert_one d pos s).2 = false) : (insert_one d pos s).1 = d := by
  by_cases hcap : MAX_LINES ≤ d.line_count
  · rw [insert_one_fail d pos s hcap]
  · unfold insert_one at h
    rw [make_room_succ d pos 1 (by omega) (by omega)] at h
    simp at h

/-- insert_one preserves the store invariant (at a position within the live
region). -/
theorem insert_one_valid (d : Doc) (pos : Nat) (s : List Char)
    (hv : Valid d) (hpos : pos ≤ d.line_count) : Valid (insert_one d pos s).1 := by
  by_cases hcap : MAX_LINES ≤ d.line_count
  · rw [insert_one_fail d pos s hcap]
    exact hv
  · unfold insert_one
    rw [make_room_succ d pos 1 (by omega) (by omega)]
    show Valid (set_line
      { lines := fun i =>
          if pos + 1 ≤ i ∧ i < d.line_count + 1 then d.lines (i - 1)
          else d.lines i,
        line_count := d.line_count + 1 } pos s)
    intro i hi
    have hi2 : i < d.line_count + 1 := hi
    rw [set_line_lines]
    by_cases h1 : i = pos
    · rw [if_pos h1]; rfl
    · rw [if_neg h1]
      show ((if pos + 1 ≤ i ∧ i < d.line_count + 1 then d.lines (i - 1)
        else d.lines i)).isSome = true
      by_cases h2 : pos + 1 ≤ i ∧ i < d.line_count + 1
      · rw [if_pos h2]
        exact hv (i - 1) (by omega)
      · rw [if_neg h2]
        exact hv i (by omega)

/-- The insert loop preserves the store invariant. -/
theorem insert_loop_valid :
    ∀ (input : List (List Char)) (d : Doc) (pos : Nat), Valid d →
      pos ≤ d.line_count → Valid (insert_loop d pos input).1 := by
  intro input
  induction input with
  | nil => intro d pos hv _; exact hv
  | cons s rest IH =>
    intro d pos hv hpos
    show Valid (if (insert_one d pos s).2 then
      insert_loop (insert_one d pos s).1 (pos + 1) rest
      else ((insert_one d pos s).1, pos)).1
    by_cases h : (insert_one d pos s).2 = true
    · rw [if_pos h]
      exact IH (insert_one d pos s).1 (pos + 1)
        (insert_one_valid d pos s hv hpos)
        (by rw [insert_one_true_count d pos s h]; omega)
    · rw [if_neg h]
      rw [insert_one_false_eq d pos s (by simpa using h)]
      exact hv

/-- The clamp of the insert start position lands in the closed interval
from 1 to line_count + 1. -/
theorem insert_start_range (lc : Nat) (n : Int) :
    1 ≤ insert_start lc n ∧ insert_start lc n ≤ (lc : Int) + 1 := by
  unfold insert_start
  split_ifs <;> omega

/-- A successful delete_clamp yields an in-range nonempty 1-based range. -/
theorem delete_clamp_spec (lc : Nat) (a b : Int) (a2 b2 : Nat)
    (h : delete_clamp lc a b = some (a2, b2)) :
    1 ≤ a2 ∧ a2 ≤ b2 ∧ b2 ≤ lc := by
  simp only [delete_clamp] at h
  split_ifs at h <;>
    simp only [Option.some.injEq, Prod.mk.injEq] at h <;> omega

/-- Computation of cmd_delete in the no-op case. -/
theorem cmd_delete_none (d : Doc) (a b : Int)
    (h : delete_clamp d.line_count a b = none) : cmd_delete d a b = (d, none) := by
  unfold cmd_delete
  rw [h]

/-- Computation of cmd_delete in the active case. -/
theorem cmd_delete_some (d : Doc) (a b : Int) (a2 b2 : Nat)
    (h : delete_clamp d.line_count a b = some (a2, b2)) :
    (cmd_delete d a b).1
      = close_gap (free_lines_list d (natRange (a2 - 1) (b2 - 1)))
          (a2 - 1) (b2 - a2 + 1) := by
  unfold cmd_delete
  rw [h]

/-- cmd_delete preserves the store invariant. -/
theorem cmd_delete_valid (d : Doc) (a b : Int) (hv : Valid d) :
    Valid (cmd_delete d a b).1 := by
  cases h : delete_clamp d.line_count a b with
  | none => rw [cmd_delete_none d a b h]; exact hv
  | some pair =>
    obtain ⟨a2, b2⟩ := pair
    obtain ⟨h1, h2, h3⟩ := delete_clamp_spec d.line_count a b a2 b2 h
    rw [cmd_delete_some d a b a2 b2 h]
    intro i hi
    have hcnt : i < d.line_count - (b2 - a2 + 1) := by
      have hx : i < (close_gap (free_lines_list d (natRange (a2 - 1) (b2 - 1)))
          (a2 - 1) (b2 - a2 + 1)).line_count := hi
      rw [close_gap_count, free_lines_list_count] at hx
      exact hx
    rw [close_gap_lines, free_lines_list_count]
    by_cases hcase : a2 - 1 ≤ i ∧ i + (b2 - a2 + 1) < d.line_count
    · rw [if_pos hcase, free_lines_list_lines]
      rw [if_neg ?hni]
      case hni =>
        rintro ⟨hm, -⟩
        rw [mem_natRange] at hm
        omega
      exact hv (i + (b2 - a2 + 1)) (by omega)
    · rw [if_neg hcase, free_lines_list_lines]
      rw [if_neg ?hni2]
      case hni2 =>
        rintro ⟨hm, -⟩
        rw [mem_natRange] at hm
        omega
      exact hv i (by omega)

/-- cmd_edit preserves the store invariant. -/
theorem cmd_edit_valid (d : Doc) (n : Int) (repl : List Char) (hv : Valid d) :
    Valid (cmd_edit d n repl).1 := by
  unfold cmd_edit
  split_ifs with h
  · exact hv
  · intro i hi
    have hi2 : i < d.line_count := by
      have hx : i < (set_line (free_line d (n.toNat - 1)) (n.toNat - 1)
          repl).line_count := hi
      rw [set_line_count, free_line_count] at hx
      exact hx
    show ((set_line (free_line d (n.toNat - 1)) (n.toNat - 1)
      repl).lines i).isSome = true
    rw [set_line_lines]
    by_cases h1 : i = n.toNat - 1
    · rw [if_pos h1]; rfl
    · rw [if_neg h1, free_line_lines, if_neg (fun hx => h1 hx.1)]
      exact hv i hi2

/-- An out-of-range cmd_edit leaves the store unchanged. -/
theorem cmd_edit_fail (d : Doc) (n : Int) (repl : List Char)
    (h : n < 1 ∨ (d.line_count : Int) < n) : (cmd_edit d n repl).1 = d := by
  unfold cmd_edit
  rw [if_pos h]

/-- Appending an empty line preserves the store invariant. -/
theorem push_empty_valid (d : Doc) (hv : Valid d) : Valid (push_empty d) := by
  intro i hi
  have hi2 : i < d.line_count + 1 := hi
  show ((if i = d.line_count then some [] else d.lines i)).isSome = true
  by_cases h : i = d.line_count
  · rw [if_pos h]; rfl
  · rw [if_neg h]
    exact hv i (by omega)

/-- The ensure_line_exists loop preserves the store invariant. -/
theorem ensureAux_valid (k : Nat) :
    ∀ d : Doc, Valid d → Valid (ensureAux k d) := by
  induction k with
  | zero => intro d hv; exact hv
  | succ k IH =>
    intro d hv
    show Valid (if d.line_count < MAX_LINES then ensureAux k (push_empty d) else d)
    by_cases h : d.line_count < MAX_LINES
    · rw [if_pos h]
      exact IH (push_empty d) (push_empty_valid d hv)
    · rw [if_neg h]
      exact hv

/-- The ensure_line_exists loop never drives the count above MAX_LINES. -/
theorem ensureAux_count (k : Nat) :
    ∀ d : Doc, d.line_count ≤ MAX_LINES → (ensureAux k d).line_count ≤ MAX_LINES := by
  induction k with
  | zero => intro d h; exact h
  | succ k IH =>
    intro d h
    show (if d.line_count < MAX_LINES then ensureAux k (push_empty d) else d).line_count ≤ MAX_LINES
    by_cases hc : d.line_count < MAX_LINES
    · rw [if_pos hc]
      refine IH (push_empty d) ?_
      show d.line_count + 1 ≤ MAX_LINES
      omega
    · rw [if_neg hc]
      exact h

/-- A three-line store satisfies the invariant (witness input). -/
theorem docThree_valid : Valid docThree := by
  intro i hi
  have h3 : i < 3 := hi
  interval_cases i <;> rfl

/-- Claim C8: after every successful line-store operation every index below
line_count holds a non-null buffer, and failed operations leave the store —
hence line_count — unchanged: make_room commits its shift only after the
capacity check, a failed per-line insert leaves the store as it was, the
insert loop, delete, edit and ensure_line_exists all preserve the
invariant, and an out-of-range edit is a pure no-op.  (Allocation is
modelled as succeeding.) -/
theorem C8_store_invariant :
    (∀ (d : Doc) (pos count : Nat), (make_room d pos count).2 = false →
      (make_room d pos count).1 = d) ∧
    (∀ (d : Doc) (pos : Nat) (s : List Char), Valid d → pos ≤ d.line_count →
      Valid (insert_one d pos s).1) ∧
    (∀ (d : Doc) (pos : Nat) (s : List Char), (insert_one d pos s).2 = false →
      (insert_one d pos s).1 = d) ∧
    (∀ (d : Doc) (n : Int) (input : List (List Char)), Valid d →
      Valid (cmd_insert d n input).1) ∧
    (∀ (d : Doc) (a b : Int), Valid d → Valid (cmd_delete d a b).1) ∧
    (∀ (d : Doc) (n : Int) (repl : List Char), Valid d →
      Valid (cmd_edit d n repl).1) ∧
    (∀ (d : Doc) (n : Int) (repl : List Char), (n < 1 ∨ (d.line_count : Int) < n) →
      (cmd_edit d n repl).1 = d) ∧
    (∀ (d : Doc) (idx : Nat), Valid d → Valid (ensure_line_exists d idx)) := by
  refine ⟨make_room_false_eq, insert_one_valid, insert_one_false_eq, ?_,
    cmd_delete_valid, cmd_edit_valid, cmd_edit_fail, ?_⟩
  · intro d n input hv
    unfold cmd_insert
    refine insert_loop_valid input d ((insert_start d.line_count n).toNat - 1) hv ?_
    have := insert_start_range d.line_count n
    omega
  · intro d idx hv
    exact ensureAux_valid (idx + 1 - d.line_count) d hv

/-- Witness for C8_store_invariant on a concrete three-line store. -/
theorem C8_store_invariant_witness :
    Valid (insert_one docThree 1 ['z']).1 ∧
    Valid (cmd_insert docThree 2 [['u'], ['v']]).1 ∧
    Valid (cmd_delete docThree 2 2).1 ∧
    Valid (cmd_edit docThree 2 ['w']).1 ∧
    (cmd_edit docThree 9 ['w']).1 = docThree ∧
    Valid (ensure_line_exists docThree 5) :=
  ⟨C8_store_invariant.2.1 docThree 1 ['z'] docThree_valid (by decide),
   C8_store_invariant.2.2.2.1 docThree 2 [['u'], ['v']] docThree_valid,
   C8_store_invariant.2.2.2.2.1 docThree 2 2 docThree_valid,
   C8_store_invariant.2.2.2.2.2.1 docThree 2 ['w'] docThree_valid,
   C8_store_invariant.2.2.2.2.2.2.1 docThree 9 ['w'] (by right; decide),
   C8_store_invariant.2.2.2.2.2.2.2 docThree 5 docThree_valid⟩

/-- make_room never drives line_count above MAX_LINES. -/
theorem make_room_count_le (d : Doc) (pos count : Nat)
    (h : d.line_count ≤ MAX_LINES) :
    (make_room d pos count).1.line_count ≤ MAX_LINES := by
  unfold make_room
  split_ifs with h1 h2
  · exact h
  · exact h
  · show d.line_count + count ≤ MAX_LINES
    omega

/-- Structure of delete_char's effect on line_count: either unchanged, or a
join removed exactly one of at least two lines. -/
theorem delete_char_count (st : Ed) :
    (delete_char st).doc.line_count = st.doc.line_count ∨
    ((delete_char st).doc.line_count + 1 = st.doc.line_count ∧
      2 ≤ st.doc.line_count) := by
  simp only [delete_char]
  split_ifs with h1 h2 h3 h4
  · left; rfl
  · right
    refine ⟨?_, by omega⟩
    show (close_gap (free_line (set_line st.doc st.cursor_row _)
        (st.cursor_row + 1)) (st.cursor_row + 1) 1).line_count + 1
      = st.doc.line_count
    rw [close_gap_count, free_line_count, set_line_count]
    omega
  · left; rfl
  · left; rfl
  · left
    show (set_line st.doc st.cursor_row _).line_count = st.doc.line_count
    rw [set_line_count]

/-- A successful load never yields more than MAX_LINES lines. -/
theorem load_file_count (f : List Char) (ls : List (List Char))
    (h : load_file f = some ls) : ls.length ≤ MAX_LINES := by
  simp only [load_file] at h
  split_ifs at h with h1
  simp only [Option.some.injEq] at h
  subst h
  omega

/-- Claim C10: every mutation of the line store keeps line_count within
bounds: make_room and ensure_line_exists respect MAX_LINES, cmd_delete
either no-ops or removes a range whose size never exceeds the lines present
(so the count never underflows), the visual join removes exactly one of at
least two lines, and a successful load holds at most MAX_LINES lines. -/
theorem C10_line_count_bounds :
    (∀ (d : Doc) (pos count : Nat), d.line_count ≤ MAX_LINES →
      (make_room d pos count).1.line_count ≤ MAX_LINES) ∧
    (∀ (d : Doc) (a b : Int), d.line_count ≤ MAX_LINES →
      (cmd_delete d a b).1.line_count ≤ MAX_LINES ∧
      ((cmd_delete d a b).1 = d ∨
        ∃ a2 b2 : Nat, 1 ≤ a2 ∧ a2 ≤ b2 ∧ b2 ≤ d.line_count ∧
          (cmd_delete d a b).1.line_count + (b2 - a2 + 1) = d.line_count)) ∧
    (∀ st : Ed, st.doc.line_count ≤ MAX_LINES →
      (delete_char st).doc.line_count ≤ MAX_LINES ∧
      ((delete_char st).doc.line_count = st.doc.line_count ∨
        ((delete_char st).doc.line_count + 1 = st.doc.line_count ∧
          2 ≤ st.doc.line_count))) ∧
    (∀ (d : Doc) (idx : Nat), d.line_count ≤ MAX_LINES →
      (ensure_line_exists d idx).line_count ≤ MAX_LINES) ∧
    (∀ (f : List Char) (ls : List (List Char)), load_file f = some ls →
      ls.length ≤ MAX_LINES) := by
  refine ⟨make_room_count_le, ?_, ?_, ?_, load_file_count⟩
  · intro d a b h
    cases hdc : delete_clamp d.line_count a b with
    | none =>
      rw [cmd_delete_none d a b hdc]
      exact ⟨h, Or.inl rfl⟩
    | some pair =>
      obtain ⟨a2, b2⟩ := pair
      obtain ⟨h1, h2, h3⟩ := delete_clamp_spec d.line_count a b a2 b2 hdc
      rw [cmd_delete_some d a b a2 b2 hdc]
      rw [close_gap_count, free_lines_list_count]
      exact ⟨by omega, Or.inr ⟨a2, b2, h1, h2, h3, by omega⟩⟩
  · intro st h
    rcases delete_char_count st with hc | hc
    · exact ⟨by omega, Or.inl hc⟩
    · exact ⟨by omega, Or.inr hc⟩
  · intro d idx h
    exact ensureAux_count (idx + 1 - d.line_count) d h

/-- Witness for C10_line_count_bounds on concrete stores. -/
theorem C10_line_count_bounds_witness :
    (make_room docThree 0 1).1.line_count ≤ MAX_LINES ∧
    (cmd_delete docThree 1 2).1.line_count ≤ MAX_LINES ∧
    (delete_char edOne).doc.line_count ≤ MAX_LINES ∧
    (ensure_line_exists docThree 5).line_count ≤ MAX_LINES ∧
    [['h', 'i']].length ≤ MAX_LINES :=
  ⟨C10_line_count_bounds.1 docThree 0 1 (by decide),
   (C10_line_count_bounds.2.1 docThree 1 2 (by decide)).1,
   (C10_line_count_bounds.2.2.1 edOne (by decide)).1,
   C10_line_count_bounds.2.2.2.1 docThree 5 (by decide),
   C10_line_count_bounds.2.2.2.2 (write_file [['h', 'i']]) [['h', 'i']] (by decide)⟩

/-- ensure_line_exists does nothing when the requested row is already
live. -/
theorem ensure_line_exists_noop (d : Doc) (idx : Nat) (h : idx < d.line_count) :
    ensure_line_exists d idx = d := by
  unfold ensure_line_exists
  have h0 : idx + 1 - d.line_count = 0 := by omega
  rw [h0]
  rfl

/-- Computation of delete_char in the join case: cursor at end of line, a
next line exists, and the joined line fits. -/
theorem delete_char_join (st : Ed) (line nxt : List Char)
    (_hrow : st.cursor_row < st.doc.line_count)
    (hline : st.doc.lines st.cursor_row = some line)
    (hcol : line.length ≤ st.cursor_col)
    (hnext : st.cursor_row + 1 < st.doc.line_count)
    (hnxt : st.doc.lines (st.cursor_row + 1) = some nxt)
    (hfit : line.length + nxt.length < LINE_LEN) :
    delete_char st
      = { st with doc := close_gap (free_line (set_line st.doc st.cursor_row
          (line ++ nxt)) (st.cursor_row + 1)) (st.cursor_row + 1) 1 } := by
  simp only [delete_char, hline, hnxt, Option.getD_some]
  rw [if_neg (by omega), if_pos hcol, if_pos hnext, if_pos hfit]

/-- Computation of backspace_char at column 0 of a non-first row: move to
the end of the previous line and delete there (the join). -/
theorem backspace_at_zero (st : Ed) (hcol : st.cursor_col = 0)
    (hrow : 0 < st.cursor_row) :
    backspace_char st
      = delete_char { st with cursor_row := st.cursor_row - 1,
                              cursor_col := ((st.doc.lines (st.cursor_row - 1)).getD []).length } := by
  unfold backspace_char
  rw [if_neg (by omega), if_pos hrow]

/-- Claim C7: in the visual editor, pressing Enter at column c of a line s
(with the document below capacity) and then Backspace at column 0 of the
resulting new line restores the original line s in place, the original
line_count and every other line, and leaves the cursor at (row, c). -/
theorem C7_split_join (st : Ed) (s : List Char)
    (hrow : st.cursor_row < st.doc.line_count)
    (hcap : st.doc.line_count < MAX_LINES)
    (hline : st.doc.lines st.cursor_row = some s)
    (hlen : s.length ≤ LINE_LEN - 1)
    (hcol : st.cursor_col ≤ s.length) :
    (backspace_char (insert_newline st)).doc.line_count = st.doc.line_count ∧
    (backspace_char (insert_newline st)).cursor_row = st.cursor_row ∧
    (backspace_char (insert_newline st)).cursor_col = st.cursor_col ∧
    (∀ i, i < st.doc.line_count →
      (backspace_char (insert_newline st)).doc.lines i = st.doc.lines i) := by
  obtain ⟨d, cr, cc, la, lb⟩ := st
  obtain ⟨L, lc⟩ := d
  simp only at hrow hcap hline hcol ⊢
  have hLL : LINE_LEN = 256 := rfl
  have htk : (s.take cc).length = cc := by
    rw [List.length_take]
    omega
  have hdp : (s.drop cc).length = s.length - cc := List.length_drop cc s
  -- Step 1: the Enter key splits the line.
  have hIN : insert_newline ⟨⟨L, lc⟩, cr, cc, la, lb⟩
      = { doc := set_line (set_line
            { lines := fun i =>
                if cr + 1 + 1 ≤ i ∧ i < lc + 1 then L (i - 1) else L i,
              line_count := lc + 1 }
            (cr + 1) (s.drop cc)) cr (s.take cc),
          cursor_row := cr + 1, cursor_col := 0, last_a := la, last_b := lb } := by
    simp only [insert_newline, ensure_line_exists_noop ⟨L, lc⟩ cr hrow, hline,
      Option.getD_some]
    rw [if_neg (show ¬ s.length < cc by omega)]
    rw [if_neg (show ¬ MAX_LINES ≤ lc by omega)]
    rw [make_room_succ ⟨L, lc⟩ (cr + 1) 1 (by omega) (show lc + 1 ≤ MAX_LINES by omega)]
    rfl
  rw [hIN]
  -- Step 2: Backspace at column 0 of the new line goes back to column c and
  -- deletes there.
  rw [backspace_at_zero _ rfl (Nat.succ_pos cr)]
  have hl1 : ∀ X : Doc, (set_line X cr (s.take cc)).lines cr = some (s.take cc) := by
    intro X
    rw [set_line_lines, if_pos rfl]
  simp only [Nat.add_sub_cancel, hl1, Option.getD_some, htk]
  -- Step 3: the delete joins the two halves back together.
  rw [delete_char_join
    { doc := set_line (set_line
        { lines := fun i =>
            if cr + 1 + 1 ≤ i ∧ i < lc + 1 then L (i - 1) else L i,
          line_count := lc + 1 }
        (cr + 1) (s.drop cc)) cr (s.take cc),
      cursor_row := cr, cursor_col := cc, last_a := la, last_b := lb }
    (s.take cc) (s.drop cc)
    (show cr < lc + 1 by omega)
    (hl1 _)
    (show (s.take cc).length ≤ cc by omega)
    (show cr + 1 < lc + 1 by omega)
    (show (set_line (set_line
        { lines := fun i =>
            if cr + 1 + 1 ≤ i ∧ i < lc + 1 then L (i - 1) else L i,
          line_count := lc + 1 }
        (cr + 1) (s.drop cc)) cr (s.take cc)).lines (cr + 1) = some (s.drop cc) by
      rw [set_line_lines, if_neg (by omega), set_line_lines, if_pos rfl])
    (show (s.take cc).length + (s.drop cc).length < LINE_LEN by rw [htk, hdp]; omega)]
  rw [List.take_append_drop]
  refine ⟨?_, rfl, rfl, ?_⟩
  · show (lc + 1) - 1 = lc
    omega
  · intro i hi
    show (close_gap (free_line (set_line (set_line (set_line
        { lines := fun i => if cr + 1 + 1 ≤ i ∧ i < lc + 1 then L (i - 1) else L i,
          line_count := lc + 1 }
        (cr + 1) (s.drop cc)) cr (s.take cc)) cr s) (cr + 1)) (cr + 1) 1).lines i
      = L i
    rw [close_gap_lines]
    by_cases hc1 : cr + 1 ≤ i ∧ i + 1 < (free_line (set_line (set_line (set_line
        { lines := fun i => if cr + 1 + 1 ≤ i ∧ i < lc + 1 then L (i - 1) else L i,
          line_count := lc + 1 }
        (cr + 1) (s.drop cc)) cr (s.take cc)) cr s) (cr + 1)).line_count
    · have hc1n : cr + 1 ≤ i ∧ i + 1 < lc + 1 := hc1
      rw [if_pos hc1]
      rw [free_line_lines, if_neg (by rintro ⟨hx, -⟩; omega)]
      rw [set_line_lines, if_neg (by omega)]
      rw [set_line_lines, if_neg (by omega)]
      rw [set_line_lines, if_neg (by omega)]
      show (if cr + 1 + 1 ≤ i + 1 ∧ i + 1 < lc + 1 then L (i + 1 - 1) else L (i + 1))
        = L i
      rw [if_pos ⟨by omega, by omega⟩]
      congr 1
    · have hc1n : ¬ (cr + 1 ≤ i ∧ i + 1 < lc + 1) := hc1
      rw [if_neg hc1]
      rw [free_line_lines, if_neg (by rintro ⟨hx, -⟩; omega)]
      rw [set_line_lines]
      by_cases hc2 : i = cr
      · rw [if_pos hc2, ← hline, hc2]
      · rw [if_neg hc2]
        rw [set_line_lines, if_neg hc2]
        rw [set_line_lines, if_neg (by omega)]
        show (if cr + 1 + 1 ≤ i ∧ i < lc + 1 then L (i - 1) else L i) = L i
        rw [if_neg (by rintro ⟨hx, -⟩; omega)]

/-- Witness for C7_split_join: the line "abcdef" split at column 3 and
rejoined. -/
theorem C7_split_join_witness :
    (backspace_char (insert_newline edOne)).doc.line_count = edOne.doc.line_count ∧
    (backspace_char (insert_newline edOne)).cursor_row = edOne.cursor_row ∧
    (backspace_char (insert_newline edOne)).cursor_col = edOne.cursor_col ∧
    (∀ i, i < edOne.doc.line_count →
      (backspace_char (insert_newline edOne)).doc.lines i = edOne.doc.lines i) :=
  C7_split_join edOne ['a', 'b', 'c', 'd', 'e', 'f'] (by decide) (by decide)
    (by decide) (by decide) (by decide)

/-- Claim C9: the LastRange memory is write-only.  For every REPL command
and every document and cursor state, running the command from two states
that differ only in last_a and last_b produces the same resulting document
and the same output: no command reads the last-range memory as an input or
implicit default. -/
theorem C9_last_range_writeonly (c : Cmd) (d : Doc) (cr cc : Nat)
    (la lb la2 lb2 : Int) :
    (execCmd c ⟨d, cr, cc, la, lb⟩).1.doc = (execCmd c ⟨d, cr, cc, la2, lb2⟩).1.doc ∧
    (execCmd c ⟨d, cr, cc, la, lb⟩).2 = (execCmd c ⟨d, cr, cc, la2, lb2⟩).2 := by
  cases c with
  | list a b =>
    simp only [execCmd]
    cases (cmd_list d a b).1 <;> exact ⟨rfl, rfl⟩
  | insert n input => exact ⟨rfl, rfl⟩
  | delete a b =>
    simp only [execCmd]
    cases (cmd_delete d a b).2 <;> exact ⟨rfl, rfl⟩
  | edit n repl =>
    simp only [execCmd]
    cases (cmd_edit d n repl).2.1 <;> exact ⟨rfl, rfl⟩
  | replace a b oldp newp g => exact ⟨rfl, rfl⟩
  | search a b pat => exact ⟨rfl, rfl⟩

end EviLinEd
